import Mathlib

set_option maxHeartbeats 1000000

/-!
Verification development for the agent task-queue and work-session scheduler.

The definitions below are a shallow embedding of the source:

* the task data model comes from the agent_tasks schema (drizzle migrations
  and src/lib/db/schema.ts as quoted in the plan documents);
* the queue operations (claimNext, completeWithResult, fail, enqueue,
  queueStatus) live in src/lib/agents/taskQueue.ts and
  src/lib/db/queries/agentTasks.ts, which are not part of the source
  snapshot; they are modelled from the specification (doc comments on each
  say so explicitly);
* runWorkSession, processTaskInThread, decideBriefing, handleUserMessage
  and scheduleNextRun are embedded from the Agent class
  (src/unnamed/part_005);
* delegateToAgent and removeKnowledgeItem are embedded from
  src/src/lib/agents/tools/knowledge-item-tools.ts.

Network-bound collaborators (the LLM, tool execution) are modelled as
oracle parameters so that theorems quantify over every possible outcome,
including thrown exceptions.
-/

/-- Status column of an agent_tasks row: text with default value pending;
the four values used by the code. -/
inductive TaskStatus
  | pending
  | in_progress
  | completed
  | failed
deriving DecidableEq, Repr

/-- Source column of an agent_tasks row: delegation (default), user, system
or self. -/
inductive TaskSource
  | delegation
  | user
  | system
  | self
deriving DecidableEq, Repr

/-- One agent_tasks row. Fields follow the schema: id, assigned_to_id,
assigned_by_id, task text, optional result, status, source, priority
(integer, default 0) and created_at. Ids and timestamps are natural
numbers in the embedding. -/
structure AgentTask where
  id : Nat
  assignedToId : Nat
  assignedById : Nat
  task : String
  result : Option String := none
  status : TaskStatus := .pending
  source : TaskSource := .delegation
  priority : Int := 0
  createdAt : Nat := 0
deriving DecidableEq, Repr

/-- The pending tasks of one agent, in storage order. -/
def pendingFor (agentId : Nat) (tasks : List AgentTask) : List AgentTask :=
  tasks.filter (fun t => t.assignedToId == agentId && t.status == TaskStatus.pending)

/-- Modelled from the spec: ordering used by claimNext, oldest pending task
with ties broken by priority descending then creation order ascending
(the repository's taskQueue.ts / agentTasks.ts implementation is not in
the source snapshot). Returns true when a is to be claimed before b. -/
def claimedBefore (a b : AgentTask) : Bool :=
  if a.priority == b.priority then a.createdAt ≤ b.createdAt else b.priority < a.priority

/-- Best claim candidate among c :: cs, keeping the earlier row on a full tie. -/
def bestCandidate (c : AgentTask) (cs : List AgentTask) : AgentTask :=
  cs.foldl (fun acc t => if claimedBefore acc t then acc else t) c

/-- Update every row with the given id that passes the guard. Row updates in
the queue are conditional single-row writes keyed by id. -/
def updateTask (i : Nat) (guard : AgentTask → Bool) (f : AgentTask → AgentTask)
    (tasks : List AgentTask) : List AgentTask :=
  tasks.map (fun u => if u.id == i && guard u then f u else u)

/-- Modelled from the spec: claimNext atomically selects the best pending
task for the agent and transitions it to in_progress with a conditional
update that only succeeds while the row is still pending; it returns none
(never throws) when no pending task exists. The implementation file is not
in the source snapshot; only its callers and tests are. -/
def claimNext (agentId : Nat) (tasks : List AgentTask) :
    Option AgentTask × List AgentTask :=
  match pendingFor agentId tasks with
  | [] => (none, tasks)
  | c :: cs =>
    let best := bestCandidate c cs
    (some { best with status := TaskStatus.in_progress },
     updateTask best.id (fun u => u.status == TaskStatus.pending)
       (fun u => { u with status := TaskStatus.in_progress }) tasks)

/-- Modelled from the spec: completeWithResult transitions in_progress to
completed, storing the result; calling it on a task that is not
in_progress is a defensive no-op. -/
def completeWithResult (taskId : Nat) (r : String) (tasks : List AgentTask) :
    List AgentTask :=
  updateTask taskId (fun u => u.status == TaskStatus.in_progress)
    (fun u => { u with status := TaskStatus.completed, result := some r }) tasks

/-- Modelled from the spec: fail transitions in_progress to failed and
stores the error text as the result; a failed task is terminal. -/
def failTask (taskId : Nat) (err : String) (tasks : List AgentTask) :
    List AgentTask :=
  updateTask taskId (fun u => u.status == TaskStatus.in_progress)
    (fun u => { u with status := TaskStatus.failed, result := some err }) tasks

/-- Modelled from the spec: enqueue inserts a fresh pending task; the id is
a primary key, so a row is only added when the id is not already taken. -/
def enqueueTask (t : AgentTask) (tasks : List AgentTask) : List AgentTask :=
  if tasks.any (fun u => u.id == t.id) then tasks
  else tasks ++ [{ t with status := TaskStatus.pending, result := none }]

/-- Read-only queue snapshot used by the Agent and the Scheduler. -/
structure QueueStatus where
  hasPendingWork : Bool
  pendingCount : Nat
  inProgressCount : Nat
deriving DecidableEq, Repr

/-- Modelled from the spec: queueStatus counts the agent's pending and
in_progress tasks. -/
def getQueueStatus (agentId : Nat) (tasks : List AgentTask) : QueueStatus :=
  let p := (pendingFor agentId tasks).length
  let ip := (tasks.filter (fun t =>
    t.assignedToId == agentId && t.status == TaskStatus.in_progress)).length
  ⟨p > 0, p, ip⟩

example :
    claimNext 1 [⟨5, 1, 1, "a", none, .pending, .delegation, 0, 3⟩] =
      (some ⟨5, 1, 1, "a", none, .in_progress, .delegation, 0, 3⟩,
       [⟨5, 1, 1, "a", none, .in_progress, .delegation, 0, 3⟩]) := by
  decide

example : claimNext 1 [] = (none, []) := by decide

example :
    (claimNext 1 [⟨5, 1, 1, "a", none, .pending, .delegation, 0, 9⟩,
                  ⟨6, 1, 1, "b", none, .pending, .delegation, 0, 2⟩]).1 =
      some ⟨6, 1, 1, "b", none, .in_progress, .delegation, 0, 2⟩ := by
  decide

/-- The fold in bestCandidate only ever returns one of its inputs. -/
theorem bestCandidate_mem (c : AgentTask) (cs : List AgentTask) :
    bestCandidate c cs ∈ c :: cs := by
  induction cs generalizing c with
  | nil => simp [bestCandidate]
  | cons d ds ih =>
    show List.foldl _ _ (d :: ds) ∈ _
    rw [List.foldl_cons]
    by_cases h : claimedBefore c d
    · rw [if_pos h]
      have h2 : bestCandidate c ds ∈ c :: ds := ih c
      rcases List.mem_cons.1 h2 with h1 | h1
      · exact List.mem_cons.2 (Or.inl h1)
      · exact List.mem_cons.2 (Or.inr (List.mem_cons.2 (Or.inr h1)))
    · rw [if_neg h]
      have h2 : bestCandidate d ds ∈ d :: ds := ih d
      exact List.mem_cons_of_mem _ h2

/-- A member of the pending list is a member of the queue, is pending and is
assigned to the agent. -/
theorem mem_pendingFor (a : Nat) (tasks : List AgentTask) (t : AgentTask)
    (h : t ∈ pendingFor a tasks) :
    t ∈ tasks ∧ t.assignedToId = a ∧ t.status = TaskStatus.pending := by
  unfold pendingFor at h
  have hmem := List.mem_of_mem_filter h
  have hp := List.of_mem_filter h
  simp only [Bool.and_eq_true, beq_iff_eq] at hp
  exact ⟨hmem, hp.1, hp.2⟩

/-- Claiming one id into in_progress removes exactly the rows with that id
from the pending list and nothing else. -/
theorem pendingFor_claim_update (a bid : Nat) (tasks : List AgentTask) :
    pendingFor a (updateTask bid (fun u => u.status == TaskStatus.pending)
      (fun u => { u with status := TaskStatus.in_progress }) tasks) =
    (pendingFor a tasks).filter (fun u => !(u.id == bid)) := by
  unfold pendingFor updateTask
  rw [List.filter_map, List.filter_filter]
  have hpf : ∀ u ∈ tasks,
      ((fun t : AgentTask => t.assignedToId == a && t.status == TaskStatus.pending) ∘
        (fun u : AgentTask => if u.id == bid && u.status == TaskStatus.pending
          then { u with status := TaskStatus.in_progress } else u)) u =
      (!(u.id == bid) && (u.assignedToId == a && u.status == TaskStatus.pending)) := by
    intro u _
    by_cases hid : u.id = bid <;> by_cases hst : u.status = TaskStatus.pending <;>
      simp [Function.comp, hid, hst]
  rw [List.filter_congr hpf]
  have hfix : ∀ u ∈ tasks.filter
      (fun u => !(u.id == bid) && (u.assignedToId == a && u.status == TaskStatus.pending)),
      (fun u : AgentTask => if u.id == bid && u.status == TaskStatus.pending
        then { u with status := TaskStatus.in_progress } else u) u = u := by
    intro u hu
    have h2 := List.of_mem_filter hu
    simp only [Bool.and_eq_true, Bool.not_eq_true'] at h2
    simp [h2.1]
  rw [List.map_congr_left hfix]
  simp

/-- With exactly one pending task the claim succeeds and empties the
agent's pending list. -/
theorem claimNext_single (a : Nat) (tasks : List AgentTask) (c : AgentTask)
    (hc : pendingFor a tasks = [c]) :
    claimNext a tasks =
      (some { c with status := TaskStatus.in_progress },
       updateTask c.id (fun u => u.status == TaskStatus.pending)
         (fun u => { u with status := TaskStatus.in_progress }) tasks) := by
  unfold claimNext
  rw [hc]
  simp [bestCandidate]

/-- Claim C1: claimNext is atomic at the storage layer, so two concurrent
invocations for the same agent serialize; when exactly one pending task
exists for the agent, whichever caller is serialized first claims the task
(claimNext returns it, now in_progress) and the second caller receives
none, so no task is ever claimed by two callers. -/
theorem claimNext_at_most_one_claimer (a : Nat) (tasks : List AgentTask)
    (h : (pendingFor a tasks).length = 1) :
    (claimNext a tasks).1.isSome = true ∧
      (claimNext a (claimNext a tasks).2).1 = none := by
  obtain ⟨c, hc⟩ := List.length_eq_one.1 h
  rw [claimNext_single a tasks c hc]
  refine ⟨rfl, ?_⟩
  have h2 : pendingFor a (updateTask c.id (fun u => u.status == TaskStatus.pending)
      (fun u => { u with status := TaskStatus.in_progress }) tasks) = [] := by
    rw [pendingFor_claim_update, hc]
    simp
  unfold claimNext
  rw [h2]

/-- Witness for claimNext_at_most_one_claimer on a concrete one-task queue. -/
theorem claimNext_at_most_one_claimer_witness :
    (pendingFor 1 [⟨5, 1, 1, "research", none, .pending, .delegation, 0, 3⟩]).length = 1 ∧
      ((claimNext 1 [⟨5, 1, 1, "research", none, .pending, .delegation, 0, 3⟩]).1.isSome = true ∧
        (claimNext 1 (claimNext 1
          [⟨5, 1, 1, "research", none, .pending, .delegation, 0, 3⟩]).2).1 = none) :=
  ⟨by decide, claimNext_at_most_one_claimer 1 _ (by decide)⟩

/-- Removing a member that fails the predicate makes the filtered list
strictly shorter. -/
theorem length_filter_lt_of_mem_not {α : Type} (p : α → Bool) (l : List α) (x : α)
    (hx : x ∈ l) (hpx : p x = false) : (l.filter p).length < l.length := by
  induction l with
  | nil => cases hx
  | cons y ys ih =>
    rcases List.mem_cons.1 hx with h | h
    · subst h
      rw [List.filter_cons, hpx]
      simp only [Bool.false_eq_true, if_neg, not_false_iff, List.length_cons]
      exact Nat.lt_succ_of_le (List.length_filter_le p ys)
    · rw [List.filter_cons]
      by_cases hy : p y
      · simp only [hy, if_pos, List.length_cons]
        exact Nat.succ_lt_succ (ih h)
      · simp only [hy, Bool.false_eq_true, if_neg, not_false_iff, List.length_cons]
        exact Nat.lt_succ_of_lt (ih h)

/-- A conditional write that only fires on in_progress rows and never
produces a pending row leaves the pending list untouched. -/
theorem pendingFor_update_inprogress (a i : Nat) (f : AgentTask → AgentTask)
    (hf : ∀ u, (f u).status ≠ TaskStatus.pending) (tasks : List AgentTask) :
    pendingFor a (updateTask i (fun u => u.status == TaskStatus.in_progress) f tasks) =
      pendingFor a tasks := by
  unfold pendingFor updateTask
  rw [List.filter_map]
  have hpf : ∀ u ∈ tasks,
      ((fun t : AgentTask => t.assignedToId == a && t.status == TaskStatus.pending) ∘
        (fun u : AgentTask => if u.id == i && u.status == TaskStatus.in_progress
          then f u else u)) u =
      (u.assignedToId == a && u.status == TaskStatus.pending) := by
    intro u _
    by_cases hc : (u.id == i && u.status == TaskStatus.in_progress) = true
    · have h2 := hf u
      have h3 : ((f u).status == TaskStatus.pending) = false := by
        simpa using h2
      have h4 : (u.status == TaskStatus.pending) = false := by
        simp only [Bool.and_eq_true, beq_iff_eq] at hc
        simp [hc.2]
      simp [Function.comp, hc, h3, h4]
    · simp [Function.comp, hc]
  rw [List.filter_congr hpf]
  have hfix : ∀ u ∈ tasks.filter
      (fun u => u.assignedToId == a && u.status == TaskStatus.pending),
      (fun u : AgentTask => if u.id == i && u.status == TaskStatus.in_progress
        then f u else u) u = u := by
    intro u hu
    have h2 := List.of_mem_filter hu
    simp only [Bool.and_eq_true, beq_iff_eq] at h2
    have : (u.status == TaskStatus.in_progress) = false := by simp [h2.2]
    simp [this]
  rw [List.map_congr_left hfix]
  simp

/-- Inversion of a failed claim: the pending list was empty and the queue is
returned unchanged. -/
theorem claimNext_none_inv (a : Nat) (tasks ts2 : List AgentTask)
    (h : claimNext a tasks = (none, ts2)) :
    pendingFor a tasks = [] ∧ ts2 = tasks := by
  unfold claimNext at h
  cases hp : pendingFor a tasks with
  | nil =>
    rw [hp] at h
    simp only [Prod.mk.injEq] at h
    exact ⟨rfl, h.2.symm⟩
  | cons c cs =>
    rw [hp] at h
    simp at h

/-- Inversion of a successful claim: the claimed row is a pending row of the
agent, returned as in_progress, and the queue got the matching conditional
update. -/
theorem claimNext_some_inv (a : Nat) (tasks ts2 : List AgentTask) (tcl : AgentTask)
    (h : claimNext a tasks = (some tcl, ts2)) :
    ∃ best, best ∈ pendingFor a tasks ∧
      tcl = { best with status := TaskStatus.in_progress } ∧
      ts2 = updateTask best.id (fun u => u.status == TaskStatus.pending)
        (fun u => { u with status := TaskStatus.in_progress }) tasks := by
  unfold claimNext at h
  cases hp : pendingFor a tasks with
  | nil =>
    rw [hp] at h
    simp at h
  | cons c cs =>
    rw [hp] at h
    simp only [Prod.mk.injEq, Option.some.injEq] at h
    exact ⟨bestCandidate c cs, hp ▸ bestCandidate_mem c cs, h.1.symm, h.2.symm⟩

/-- Oracle for everything network-bound inside a work session. procOutcome
gives, per task id, the outcome of processTaskInThread (ok result text, or
error message when the processing throws); the Boolean flags make the
wrap-up steps of the session body throw, modelling exceptions that escape
the try block of runWorkSession. -/
structure WorkEnv where
  procOutcome : Nat → Except String String
  extractThrows : Bool := false
  endSessionThrows : Bool := false
  briefingThrows : Bool := false
  briefingCreates : Bool := false
  scheduleThrows : Bool := false
  now : Nat := 0

/-- One iteration body of the runWorkSession loop after a claim (part_005
lines 341 to 356): try processTaskInThread and completeTaskWithResult with
the result text; on a thrown error, catch it and failTask with the error
message. -/
def processOne (env : WorkEnv) (t : AgentTask) (tasks : List AgentTask) :
    List AgentTask :=
  match env.procOutcome t.id with
  | .ok r => completeWithResult t.id r tasks
  | .error e => failTask t.id e tasks

/-- The claim-process loop of runWorkSession (part_005 lines 337 to 360):
claim tasks one at a time until claimNext returns none. The fuel argument
only bounds recursion; one pending task is claimed per round, so any fuel
of at least the pending count drains the queue. -/
def processLoop (env : WorkEnv) (agentId : Nat) : Nat → List AgentTask → List AgentTask
  | 0, tasks => tasks
  | fuel+1, tasks =>
    match claimNext agentId tasks with
    | (none, _) => tasks
    | (some t, tasks2) => processLoop env agentId fuel (processOne env t tasks2)

/-- Completing or failing the claimed task never touches pending rows. -/
theorem pendingFor_processOne (env : WorkEnv) (a : Nat) (t : AgentTask)
    (tasks : List AgentTask) :
    pendingFor a (processOne env t tasks) = pendingFor a tasks := by
  unfold processOne
  cases env.procOutcome t.id with
  | ok r =>
    exact pendingFor_update_inprogress a t.id _ (fun u => by simp) tasks
  | error e =>
    exact pendingFor_update_inprogress a t.id _ (fun u => by simp) tasks

/-- A successful claim strictly decreases the agent's pending count. -/
theorem pendingFor_claim_lt (a : Nat) (tasks ts2 : List AgentTask) (tcl : AgentTask)
    (h : claimNext a tasks = (some tcl, ts2)) :
    (pendingFor a ts2).length < (pendingFor a tasks).length := by
  obtain ⟨best, hb, _, hts2⟩ := claimNext_some_inv a tasks ts2 tcl h
  rw [hts2, pendingFor_claim_update]
  refine length_filter_lt_of_mem_not _ _ best hb ?_
  simp

/-- Given fuel at least the pending count, the loop leaves no pending task
for the agent. -/
theorem processLoop_drains (env : WorkEnv) (a : Nat) :
    ∀ fuel tasks, (pendingFor a tasks).length ≤ fuel →
      pendingFor a (processLoop env a fuel tasks) = [] := by
  intro fuel
  induction fuel with
  | zero =>
    intro tasks h
    have := Nat.le_zero.1 h
    exact List.eq_nil_of_length_eq_zero this
  | succ n ih =>
    intro tasks h
    unfold processLoop
    cases hcl : claimNext a tasks with
    | mk r ts2 =>
      cases r with
      | none =>
        exact (claimNext_none_inv a tasks ts2 hcl).1
      | some tcl =>
        have hlt := pendingFor_claim_lt a tasks ts2 tcl hcl
        have h2 : (pendingFor a (processOne env tcl ts2)).length ≤ n := by
          rw [pendingFor_processOne]
          omega
        exact ih (processOne env tcl ts2) h2

/-- Terminal state a task must reach given the oracle outcome for its id:
completed with the result text, or failed with the error text stored as the
result. -/
def doneTask (env : WorkEnv) (k : Nat) (t : AgentTask) : Prop :=
  match env.procOutcome k with
  | .ok r => t.status = TaskStatus.completed ∧ t.result = some r
  | .error e => t.status = TaskStatus.failed ∧ t.result = some e

/-- Task ids act as the primary key of the agent_tasks table. -/
def idsNodup (tasks : List AgentTask) : Prop :=
  (tasks.map (fun t => t.id)).Nodup

/-- A conditional single-row write preserves the id column. -/
theorem map_id_updateTask (i : Nat) (g : AgentTask → Bool) (f : AgentTask → AgentTask)
    (hf : ∀ u, (f u).id = u.id) (tasks : List AgentTask) :
    (updateTask i g f tasks).map (fun t => t.id) = tasks.map (fun t => t.id) := by
  unfold updateTask
  rw [List.map_map]
  refine List.map_congr_left ?_
  intro u _
  by_cases hc : (u.id == i && g u) = true <;> simp [Function.comp, hc, hf]

/-- A conditional single-row write preserves primary-key uniqueness. -/
theorem idsNodup_updateTask (i : Nat) (g : AgentTask → Bool) (f : AgentTask → AgentTask)
    (hf : ∀ u, (f u).id = u.id) (tasks : List AgentTask) (h : idsNodup tasks) :
    idsNodup (updateTask i g f tasks) := by
  unfold idsNodup at *
  rw [map_id_updateTask i g f hf]
  exact h

/-- Rows with another id survive a conditional single-row write untouched. -/
theorem mem_updateTask_of_id_ne (i : Nat) (g : AgentTask → Bool)
    (f : AgentTask → AgentTask) (tasks : List AgentTask) (t : AgentTask)
    (ht : t ∈ tasks) (hne : t.id ≠ i) : t ∈ updateTask i g f tasks := by
  unfold updateTask
  have h2 := List.mem_map_of_mem
    (fun u : AgentTask => if u.id == i && g u then f u else u) ht
  have h3 : (t.id == i && g t) = false := by simp [hne]
  simpa [h3] using h2

/-- The targeted row is rewritten by a conditional single-row write when the
guard passes. -/
theorem mem_updateTask_of_guard (i : Nat) (g : AgentTask → Bool)
    (f : AgentTask → AgentTask) (tasks : List AgentTask) (t : AgentTask)
    (ht : t ∈ tasks) (hid : t.id = i) (hg : g t = true) :
    f t ∈ updateTask i g f tasks := by
  unfold updateTask
  have h2 := List.mem_map_of_mem
    (fun u : AgentTask => if u.id == i && g u then f u else u) ht
  have h3 : (t.id == i && g t) = true := by simp [hid, hg]
  simpa [h3] using h2

/-- With unique ids, two rows of the queue sharing an id are the same row. -/
theorem eq_of_idsNodup (tasks : List AgentTask) (h : idsNodup tasks)
    (x y : AgentTask) (hx : x ∈ tasks) (hy : y ∈ tasks) (hid : x.id = y.id) :
    x = y :=
  List.inj_on_of_nodup_map h hx hy hid

/-- Core loop invariant: a task of the agent that is pending when the loop
starts (or already resolved by it) is resolved by the time the loop ends,
completed on a successful processTaskInThread and failed with the error
text otherwise, no matter how other tasks fare. -/
theorem processLoop_resolves (env : WorkEnv) (a k : Nat) :
    ∀ fuel tasks, idsNodup tasks → (pendingFor a tasks).length ≤ fuel →
      ((∃ t ∈ tasks, t.id = k ∧ t.assignedToId = a ∧ t.status = TaskStatus.pending) ∨
        (∃ t ∈ tasks, t.id = k ∧ doneTask env k t)) →
      ∃ t ∈ processLoop env a fuel tasks, t.id = k ∧ doneTask env k t := by
  intro fuel
  induction fuel with
  | zero =>
    intro tasks hnod hlen hinv
    have hnil : pendingFor a tasks = [] :=
      List.eq_nil_of_length_eq_zero (Nat.le_zero.1 hlen)
    rcases hinv with ⟨t, ht, hidk, hta, htp⟩ | hdone
    · exfalso
      have hmem : t ∈ pendingFor a tasks :=
        List.mem_filter.2 ⟨ht, by simp [hta, htp]⟩
      rw [hnil] at hmem
      cases hmem
    · exact hdone
  | succ n ih =>
    intro tasks hnod hlen hinv
    unfold processLoop
    cases hcl : claimNext a tasks with
    | mk r ts2 =>
      cases r with
      | none =>
        have hnil := (claimNext_none_inv a tasks ts2 hcl).1
        rcases hinv with ⟨t, ht, hidk, hta, htp⟩ | hdone
        · exfalso
          have hmem : t ∈ pendingFor a tasks :=
            List.mem_filter.2 ⟨ht, by simp [hta, htp]⟩
          rw [hnil] at hmem
          cases hmem
        · exact hdone
      | some tcl =>
        obtain ⟨best, hbmem, htcl, hts2⟩ := claimNext_some_inv a tasks ts2 tcl hcl
        obtain ⟨hbt, hba, hbp⟩ := mem_pendingFor a tasks best hbmem
        have hidtcl : tcl.id = best.id := by rw [htcl]
        have hnodts2 : idsNodup ts2 := by
          rw [hts2]
          refine idsNodup_updateTask _ _ _ ?_ tasks hnod
          intro u
          rfl
        have hnod2 : idsNodup (processOne env tcl ts2) := by
          unfold processOne
          cases env.procOutcome tcl.id with
          | ok r =>
            show idsNodup (completeWithResult tcl.id r ts2)
            unfold completeWithResult
            refine idsNodup_updateTask _ _ _ ?_ ts2 hnodts2
            intro u
            rfl
          | error e =>
            show idsNodup (failTask tcl.id e ts2)
            unfold failTask
            refine idsNodup_updateTask _ _ _ ?_ ts2 hnodts2
            intro u
            rfl
        have hlen2 : (pendingFor a (processOne env tcl ts2)).length ≤ n := by
          rw [pendingFor_processOne]
          have := pendingFor_claim_lt a tasks ts2 tcl hcl
          omega
        have hsurvive : ∀ t : AgentTask, t ∈ tasks → t.id = k → best.id ≠ k →
            t ∈ processOne env tcl ts2 := by
          intro t ht hidk hbk
          have ht2 : t ∈ ts2 := by
            rw [hts2]
            refine mem_updateTask_of_id_ne _ _ _ tasks t ht ?_
            rw [hidk]
            exact fun hh => hbk hh.symm
          unfold processOne
          cases env.procOutcome tcl.id with
          | ok r =>
            refine mem_updateTask_of_id_ne _ _ _ ts2 t ht2 ?_
            rw [hidk, hidtcl]
            exact fun hh => hbk hh.symm
          | error e =>
            refine mem_updateTask_of_id_ne _ _ _ ts2 t ht2 ?_
            rw [hidk, hidtcl]
            exact fun hh => hbk hh.symm
        have hclaimed : ({ best with status := TaskStatus.in_progress }) ∈ ts2 := by
          rw [hts2]
          exact mem_updateTask_of_guard _ _ _ tasks best hbt rfl (by simp [hbp])
        have hresolved : best.id = k →
            ∃ t ∈ processOne env tcl ts2, t.id = k ∧ doneTask env k t := by
          intro hbk
          unfold processOne
          rw [hidtcl, hbk]
          cases hout : env.procOutcome k with
          | ok r =>
            refine ⟨{ best with status := TaskStatus.completed, result := some r },
              ?_, hbk, ?_⟩
            · have h5 := mem_updateTask_of_guard k
                (fun u => u.status == TaskStatus.in_progress)
                (fun u => { u with status := TaskStatus.completed, result := some r })
                ts2 ({ best with status := TaskStatus.in_progress }) hclaimed hbk rfl
              exact h5
            · unfold doneTask
              rw [hout]
              exact ⟨rfl, rfl⟩
          | error e =>
            refine ⟨{ best with status := TaskStatus.failed, result := some e },
              ?_, hbk, ?_⟩
            · have h5 := mem_updateTask_of_guard k
                (fun u => u.status == TaskStatus.in_progress)
                (fun u => { u with status := TaskStatus.failed, result := some e })
                ts2 ({ best with status := TaskStatus.in_progress }) hclaimed hbk rfl
              exact h5
            · unfold doneTask
              rw [hout]
              exact ⟨rfl, rfl⟩
        refine ih (processOne env tcl ts2) hnod2 hlen2 ?_
        rcases hinv with ⟨t, ht, hidk, hta, htp⟩ | ⟨t, ht, hidk, hdone⟩
        · by_cases hbk : best.id = k
          · exact Or.inr (hresolved hbk)
          · exact Or.inl ⟨t, hsurvive t ht hidk hbk, hidk, hta, htp⟩
        · have hbk : best.id ≠ k := by
            intro hh
            have hteq : t = best :=
              eq_of_idsNodup tasks hnod t best ht hbt (by rw [hidk, hh])
            unfold doneTask at hdone
            cases hout : env.procOutcome k with
            | ok r =>
              rw [hout] at hdone
              rw [hteq, hbp] at hdone
              exact absurd hdone.1 (by decide)
            | error e =>
              rw [hout] at hdone
              rw [hteq, hbp] at hdone
              exact absurd hdone.1 (by decide)
          exact Or.inr ⟨t, hsurvive t ht hidk hbk, hidk, hdone⟩

/-- Agent status column: idle, running or paused. -/
inductive AgentStatus
  | idle
  | running
  | paused
deriving DecidableEq, Repr

/-- State touched by one agent's work session: its status row, its
nextRunAt column, its task queue, and counters for the session side
effects (threads created and completed, insight extraction runs, briefings
created). -/
structure WorkState where
  agentStatus : AgentStatus
  nextRunAt : Option Nat
  tasks : List AgentTask
  threadsCreated : Nat
  threadsCompleted : Nat
  insightRuns : Nat
  briefingsCreated : Nat
deriving Repr

/-- Re-run interval for leads (part_005 line 60: TEAM_LEAD_NEXT_RUN_HOURS =
24, applied as hours times 60 times 60 times 1000 milliseconds in
scheduleNextRun, part_005 lines 585 to 590). -/
def teamLeadNextRunMs : Nat := 24 * 60 * 60 * 1000

/-- Wrap-up of the session body once the queue is drained (part_005 lines
362 to 387): extract insights, end the work session thread, and for a team
lead decide on a briefing and schedule the next run. Each throw flag makes
the corresponding await throw, skipping the rest of the try block; the
exception is swallowed by the catch (part_005 lines 388 to 390). -/
def sessionWrapUp (env : WorkEnv) (isLead : Bool) (s : WorkState) : WorkState :=
  if env.extractThrows then s else
  let s1 := { s with insightRuns := s.insightRuns + 1 }
  if env.endSessionThrows then s1 else
  let s2 := { s1 with threadsCompleted := s1.threadsCompleted + 1 }
  if isLead then
    if env.briefingThrows then s2 else
    let s3 := if env.briefingCreates
      then { s2 with briefingsCreated := s2.briefingsCreated + 1 } else s2
    if env.scheduleThrows then s3 else
    { s3 with nextRunAt := some (env.now + teamLeadNextRunMs) }
  else s2

/-- Embedding of Agent.runWorkSession (part_005 lines 315 to 393): check
queueStatus and return immediately with no side effect when there is no
pending work; otherwise set status running, create a fresh thread, drain
the queue through the claim-process loop, run the wrap-up (whose throws
are caught), and in the finally block set status back to idle. -/
def runWorkSession (env : WorkEnv) (agentId : Nat) (parentAgentId : Option Nat)
    (s : WorkState) : WorkState :=
  if (getQueueStatus agentId s.tasks).hasPendingWork then
    let s1 := { s with agentStatus := AgentStatus.running }
    let s2 := { s1 with threadsCreated := s1.threadsCreated + 1 }
    let s3 := { s2 with
      tasks := processLoop env agentId (pendingFor agentId s2.tasks).length s2.tasks }
    let s4 := sessionWrapUp env parentAgentId.isNone s3
    { s4 with agentStatus := AgentStatus.idle }
  else s

/-- The wrap-up never touches the task queue. -/
theorem sessionWrapUp_tasks (env : WorkEnv) (isLead : Bool) (s : WorkState) :
    (sessionWrapUp env isLead s).tasks = s.tasks := by
  unfold sessionWrapUp
  split_ifs <;> rfl

/-- The wrap-up never touches the agent status. -/
theorem sessionWrapUp_status (env : WorkEnv) (isLead : Bool) (s : WorkState) :
    (sessionWrapUp env isLead s).agentStatus = s.agentStatus := by
  unfold sessionWrapUp
  split_ifs <;> rfl

/-- For a subordinate the wrap-up neither schedules a next run nor touches
the briefing counter. -/
theorem sessionWrapUp_subordinate (env : WorkEnv) (s : WorkState) :
    (sessionWrapUp env false s).nextRunAt = s.nextRunAt ∧
      (sessionWrapUp env false s).briefingsCreated = s.briefingsCreated := by
  unfold sessionWrapUp
  split_ifs <;> simp_all

/-- An agent with pending work passes the queueStatus gate. -/
theorem hasPendingWork_of_ne (agentId : Nat) (tasks : List AgentTask)
    (h : pendingFor agentId tasks ≠ []) :
    (getQueueStatus agentId tasks).hasPendingWork = true := by
  unfold getQueueStatus
  simpa using List.length_pos.2 h

/-- With pending work, the session leaves the queue exactly as the
claim-process loop leaves it. -/
theorem runWorkSession_tasks_of_pending (env : WorkEnv) (agentId : Nat)
    (parentAgentId : Option Nat) (s : WorkState)
    (h : pendingFor agentId s.tasks ≠ []) :
    (runWorkSession env agentId parentAgentId s).tasks =
      processLoop env agentId (pendingFor agentId s.tasks).length s.tasks := by
  unfold runWorkSession
  rw [if_pos (hasPendingWork_of_ne agentId s.tasks h)]
  exact sessionWrapUp_tasks env _ _

/-- Claim C4: with no pending work, runWorkSession returns immediately and
the whole state, the thread count and the agent status included, is
untouched. -/
theorem runWorkSession_empty_queue_noop (env : WorkEnv) (agentId : Nat)
    (parentAgentId : Option Nat) (s : WorkState)
    (h : pendingFor agentId s.tasks = []) :
    runWorkSession env agentId parentAgentId s = s := by
  have hcond : (getQueueStatus agentId s.tasks).hasPendingWork = false := by
    unfold getQueueStatus
    simp [h]
  unfold runWorkSession
  rw [hcond]
  rfl

/-- Witness for runWorkSession_empty_queue_noop on an idle agent with an
empty queue. -/
theorem runWorkSession_empty_queue_noop_witness :
    pendingFor 1 (WorkState.mk AgentStatus.idle none [] 0 0 0 0).tasks = [] ∧
      runWorkSession { procOutcome := fun _ => Except.ok "done" } 1 none
        (WorkState.mk AgentStatus.idle none [] 0 0 0 0) =
      WorkState.mk AgentStatus.idle none [] 0 0 0 0 :=
  ⟨rfl, runWorkSession_empty_queue_noop _ 1 none _ rfl⟩

/-- Counterexample to claim C3 as stated: a completed invocation of
runWorkSession on a paused agent with an empty queue takes the early
return, so the agent's status afterwards is still paused, not idle. -/
theorem runWorkSession_paused_empty_not_idle :
    (runWorkSession { procOutcome := fun _ => Except.ok "done" } 1 none
        (WorkState.mk AgentStatus.paused none [] 0 0 0 0)).agentStatus =
      AgentStatus.paused ∧
      AgentStatus.paused ≠ AgentStatus.idle :=
  ⟨rfl, by decide⟩

/-- Claim C3 as amended: whenever runWorkSession finds pending work and so
enters the session body (setting status to running), it sets the status
back to idle on every exit path, including when an exception escapes the
try block; the empty-queue early return instead leaves the status
untouched. -/
theorem runWorkSession_status_idle_of_pending (env : WorkEnv) (agentId : Nat)
    (parentAgentId : Option Nat) (s : WorkState)
    (h : pendingFor agentId s.tasks ≠ []) :
    (runWorkSession env agentId parentAgentId s).agentStatus = AgentStatus.idle := by
  unfold runWorkSession
  rw [if_pos (hasPendingWork_of_ne agentId s.tasks h)]

/-- Witness for runWorkSession_status_idle_of_pending: one pending task,
its processing throws and insight extraction then throws as well, and the
status still comes back idle. -/
theorem runWorkSession_status_idle_of_pending_witness :
    pendingFor 1 (WorkState.mk AgentStatus.idle none
        [AgentTask.mk 5 1 1 "x" none .pending .user 0 0] 0 0 0 0).tasks ≠ [] ∧
      (runWorkSession
          { procOutcome := fun _ => Except.error "boom", extractThrows := true }
          1 none (WorkState.mk AgentStatus.idle none
            [AgentTask.mk 5 1 1 "x" none .pending .user 0 0] 0 0 0 0)).agentStatus =
        AgentStatus.idle :=
  ⟨by decide, runWorkSession_status_idle_of_pending _ 1 none _ (by decide)⟩

/-- Claim C2: during a work session every task of the agent that was
pending is driven to a terminal state, completed with its result text when
processTaskInThread succeeds and failed with the error text stored as its
result when it throws, and the session keeps claiming until no pending
task is left, whatever mix of failures the oracle produces. -/
theorem runWorkSession_task_failure_isolated (env : WorkEnv) (agentId : Nat)
    (parentAgentId : Option Nat) (s : WorkState) (t : AgentTask)
    (hnod : idsNodup s.tasks) (ht : t ∈ s.tasks)
    (ha : t.assignedToId = agentId) (hp : t.status = TaskStatus.pending) :
    (∃ t2 ∈ (runWorkSession env agentId parentAgentId s).tasks,
        t2.id = t.id ∧ doneTask env t.id t2) ∧
      pendingFor agentId (runWorkSession env agentId parentAgentId s).tasks = [] := by
  have hne : pendingFor agentId s.tasks ≠ [] := by
    have hmem : t ∈ pendingFor agentId s.tasks :=
      List.mem_filter.2 ⟨ht, by simp [ha, hp]⟩
    intro hnil
    rw [hnil] at hmem
    cases hmem
  rw [runWorkSession_tasks_of_pending env agentId parentAgentId s hne]
  constructor
  · exact processLoop_resolves env agentId t.id _ s.tasks hnod (le_refl _)
      (Or.inl ⟨t, ht, rfl, ha, hp⟩)
  · exact processLoop_drains env agentId _ s.tasks (le_refl _)

/-- Witness for runWorkSession_task_failure_isolated: two queued tasks, the
first one's processing throws, and the second still reaches a terminal
state with the whole queue drained. -/
theorem runWorkSession_task_failure_isolated_witness :
    (idsNodup [AgentTask.mk 5 1 1 "t1" none .pending .user 0 0,
        AgentTask.mk 6 1 1 "t2" none .pending .user 0 1] ∧
      AgentTask.mk 6 1 1 "t2" none .pending .user 0 1 ∈
        [AgentTask.mk 5 1 1 "t1" none .pending .user 0 0,
         AgentTask.mk 6 1 1 "t2" none .pending .user 0 1]) ∧
      ((∃ t2 ∈ (runWorkSession
          { procOutcome := fun i => if i == 5 then Except.error "boom" else Except.ok "done" }
          1 none (WorkState.mk AgentStatus.idle none
            [AgentTask.mk 5 1 1 "t1" none .pending .user 0 0,
             AgentTask.mk 6 1 1 "t2" none .pending .user 0 1] 0 0 0 0)).tasks,
          t2.id = (AgentTask.mk 6 1 1 "t2" none .pending .user 0 1).id ∧
            doneTask { procOutcome := fun i =>
                if i == 5 then Except.error "boom" else Except.ok "done" }
              (AgentTask.mk 6 1 1 "t2" none .pending .user 0 1).id t2) ∧
        pendingFor 1 (runWorkSession
          { procOutcome := fun i => if i == 5 then Except.error "boom" else Except.ok "done" }
          1 none (WorkState.mk AgentStatus.idle none
            [AgentTask.mk 5 1 1 "t1" none .pending .user 0 0,
             AgentTask.mk 6 1 1 "t2" none .pending .user 0 1] 0 0 0 0)).tasks = []) :=
  ⟨⟨by unfold idsNodup; decide, by decide⟩,
    runWorkSession_task_failure_isolated _ 1 none _ _ (by unfold idsNodup; decide)
      (by decide) rfl rfl⟩

/-- Claim C7: a subordinate's runWorkSession never writes nextRunAt and
never produces a briefing; the briefing decision and the next-run schedule
happen only on the lead branch, so a subordinate whose nextRunAt is null
keeps it null. -/
theorem runWorkSession_subordinate_no_schedule (env : WorkEnv) (agentId pid : Nat)
    (s : WorkState) :
    (runWorkSession env agentId (some pid) s).nextRunAt = s.nextRunAt ∧
      (runWorkSession env agentId (some pid) s).briefingsCreated =
        s.briefingsCreated := by
  unfold runWorkSession
  by_cases h : (getQueueStatus agentId s.tasks).hasPendingWork
  · rw [if_pos h]
    exact ⟨(sessionWrapUp_subordinate env _).1, (sessionWrapUp_subordinate env _).2⟩
  · rw [if_neg h]
    exact ⟨rfl, rfl⟩

/-- The four operations the queue exposes for task state (spec section
4.1): enqueue a new task, claim the next pending task of an agent,
complete an in_progress task with a result, fail an in_progress task with
an error. -/
inductive QueueOp
  | enq (t : AgentTask)
  | claim (agentId : Nat)
  | complete (taskId : Nat) (r : String)
  | fail (taskId : Nat) (e : String)

/-- Apply one queue operation to the stored rows. -/
def applyOp : QueueOp → List AgentTask → List AgentTask
  | .enq t, tasks => enqueueTask t tasks
  | .claim a, tasks => (claimNext a tasks).2
  | .complete i r, tasks => completeWithResult i r tasks
  | .fail i e, tasks => failTask i e tasks

/-- Observed status of the task with a given id; a row not yet inserted
reads as pending, its status at creation. -/
def statusOfD (k : Nat) (tasks : List AgentTask) : TaskStatus :=
  match tasks.find? (fun t => t.id == k) with
  | some t => t.status
  | none => TaskStatus.pending

/-- A single legal forward transition of the task state machine. -/
def chainStep : TaskStatus → TaskStatus → Bool
  | .pending, .in_progress => true
  | .in_progress, .completed => true
  | .in_progress, .failed => true
  | _, _ => false

/-- One observation step either repeats the previous status or takes one
legal forward transition. -/
def stepRel (a b : TaskStatus) : Bool :=
  a == b || chainStep a b

/-- A status sequence whose consecutive entries are related by stepRel. -/
def stepChain : List TaskStatus → Bool
  | [] => true
  | [_] => true
  | a :: b :: rest => stepRel a b && stepChain (b :: rest)

/-- Conditional single-row writes commute with lookup by id when the write
preserves the id. -/
theorem find?_updateTask (k i : Nat) (g : AgentTask → Bool)
    (f : AgentTask → AgentTask) (hf : ∀ u, (f u).id = u.id)
    (tasks : List AgentTask) :
    (updateTask i g f tasks).find? (fun t => t.id == k) =
      (tasks.find? (fun t => t.id == k)).map
        (fun u => if u.id == i && g u then f u else u) := by
  induction tasks with
  | nil => rfl
  | cons u us ih =>
    have hidh : (if u.id == i && g u then f u else u).id = u.id := by
      by_cases hc : (u.id == i && g u) = true
      · simp [hc, hf]
      · simp [hc]
    rw [show updateTask i g f (u :: us) =
        (if u.id == i && g u then f u else u) :: updateTask i g f us from rfl]
    rw [List.find?_cons, List.find?_cons, hidh]
    by_cases hk : (u.id == k) = true
    · rw [hk]
      rfl
    · have hk2 : (u.id == k) = false := by simpa using hk
      rw [hk2]
      exact ih

/-- A guarded single-row write moves the observed status of any id along
stepRel, provided the write itself respects stepRel under its guard. -/
theorem statusOfD_updateTask (k i : Nat) (g : AgentTask → Bool)
    (f : AgentTask → AgentTask) (hf : ∀ u, (f u).id = u.id)
    (hstep : ∀ u, g u = true → stepRel u.status (f u).status = true)
    (tasks : List AgentTask) :
    stepRel (statusOfD k tasks) (statusOfD k (updateTask i g f tasks)) = true := by
  unfold statusOfD
  rw [find?_updateTask k i g f hf]
  cases h : tasks.find? (fun t => t.id == k) with
  | none => simp [stepRel]
  | some u =>
    simp only [Option.map_some']
    by_cases hc : (u.id == i && g u) = true
    · rw [if_pos hc]
      simp only [Bool.and_eq_true] at hc
      exact hstep u hc.2
    · rw [if_neg hc]
      simp [stepRel]

/-- Every queue operation moves the observed status of every task id along
stepRel: it either leaves it alone or takes one legal forward transition. -/
theorem statusOfD_applyOp (k : Nat) (op : QueueOp) (tasks : List AgentTask) :
    stepRel (statusOfD k tasks) (statusOfD k (applyOp op tasks)) = true := by
  cases op with
  | enq t =>
    show stepRel (statusOfD k tasks) (statusOfD k (enqueueTask t tasks)) = true
    unfold enqueueTask
    by_cases hdup : (tasks.any (fun u => u.id == t.id)) = true
    · rw [if_pos hdup]
      simp [stepRel]
    · rw [if_neg hdup]
      unfold statusOfD
      rw [List.find?_append]
      cases h : tasks.find? (fun u => u.id == k) with
      | some u => simp [stepRel]
      | none =>
        simp only [Option.none_or]
        cases h2 : List.find? (fun u => u.id == k)
            [{ t with status := TaskStatus.pending, result := none }] with
        | none => simp [stepRel]
        | some v =>
          have hv : v = { t with status := TaskStatus.pending, result := none } := by
            have := List.mem_of_find?_eq_some h2
            simpa using this
          rw [hv]
          simp [stepRel]
  | claim a =>
    show stepRel (statusOfD k tasks) (statusOfD k (claimNext a tasks).2) = true
    unfold claimNext
    cases hp : pendingFor a tasks with
    | nil => simp [stepRel]
    | cons c cs =>
      refine statusOfD_updateTask k _ _ _ ?_ ?_ tasks
      · intro u
        rfl
      · intro u hg
        have hu : u.status = TaskStatus.pending := by simpa using hg
        rw [hu]
        rfl
  | complete i r =>
    show stepRel (statusOfD k tasks) (statusOfD k (completeWithResult i r tasks)) = true
    unfold completeWithResult
    refine statusOfD_updateTask k _ _ _ ?_ ?_ tasks
    · intro u
      rfl
    · intro u hg
      have hu : u.status = TaskStatus.in_progress := by simpa using hg
      rw [hu]
      rfl
  | fail i e =>
    show stepRel (statusOfD k tasks) (statusOfD k (failTask i e tasks)) = true
    unfold failTask
    refine statusOfD_updateTask k _ _ _ ?_ ?_ tasks
    · intro u
      rfl
    · intro u hg
      have hu : u.status = TaskStatus.in_progress := by simpa using hg
      rw [hu]
      rfl

/-- Statuses of one task id observed before the first and after each queue
operation, in order. -/
def statusTrace (k : Nat) : List AgentTask → List QueueOp → List TaskStatus
  | tasks, [] => [statusOfD k tasks]
  | tasks, op :: ops => statusOfD k tasks :: statusTrace k (applyOp op tasks) ops

/-- The trace always starts with the currently observed status. -/
theorem statusTrace_head (k : Nat) (ops : List QueueOp) (tasks : List AgentTask) :
    ∃ rest, statusTrace k tasks ops = statusOfD k tasks :: rest := by
  cases ops with
  | nil => exact ⟨[], rfl⟩
  | cons op ops => exact ⟨statusTrace k (applyOp op tasks) ops, rfl⟩

/-- Every observed trace is a stepRel chain. -/
theorem statusTrace_chain (k : Nat) (ops : List QueueOp) (tasks : List AgentTask) :
    stepChain (statusTrace k tasks ops) = true := by
  induction ops generalizing tasks with
  | nil => rfl
  | cons op ops ih =>
    obtain ⟨rest, hrest⟩ := statusTrace_head k ops (applyOp op tasks)
    show stepChain (statusOfD k tasks :: statusTrace k (applyOp op tasks) ops) = true
    rw [hrest]
    show (stepRel (statusOfD k tasks) (statusOfD k (applyOp op tasks)) &&
      stepChain (statusOfD k (applyOp op tasks) :: rest)) = true
    rw [statusOfD_applyOp k op tasks, ← hrest, ih (applyOp op tasks)]
    rfl

/-- Collapse consecutive repeats, leaving the sequence of distinct statuses
in observation order. -/
def dedupStatuses : List TaskStatus → List TaskStatus
  | [] => []
  | [s] => [s]
  | s :: s2 :: rest =>
    if s == s2 then dedupStatuses (s2 :: rest)
    else s :: dedupStatuses (s2 :: rest)

/-- Remaining stations of the completed branch of the state machine after a
given status. -/
def restToCompleted : TaskStatus → List TaskStatus
  | .pending => [.in_progress, .completed]
  | .in_progress => [.completed]
  | .completed => []
  | .failed => []

/-- Remaining stations of the failed branch of the state machine after a
given status. -/
def restToFailed : TaskStatus → List TaskStatus
  | .pending => [.in_progress, .failed]
  | .in_progress => [.failed]
  | .completed => []
  | .failed => []

/-- The only legal forward transitions. -/
theorem chainStep_cases (s b : TaskStatus) (h : chainStep s b = true) :
    (s = TaskStatus.pending ∧ b = TaskStatus.in_progress) ∨
      (s = TaskStatus.in_progress ∧ b = TaskStatus.completed) ∨
      (s = TaskStatus.in_progress ∧ b = TaskStatus.failed) := by
  cases s <;> cases b <;> simp_all [chainStep]

/-- A deduplicated stepRel chain starting at s is an initial segment of the
state machine's completed branch or of its failed branch from s. -/
theorem dedup_chain_rest (l : List TaskStatus) :
    ∀ s : TaskStatus, stepChain (s :: l) = true →
      (∃ r, dedupStatuses (s :: l) ++ r = s :: restToCompleted s) ∨
        (∃ r, dedupStatuses (s :: l) ++ r = s :: restToFailed s) := by
  induction l with
  | nil =>
    intro s _
    exact Or.inl ⟨restToCompleted s, rfl⟩
  | cons b rest ih =>
    intro s hchain
    have hsplit : stepRel s b = true ∧ stepChain (b :: rest) = true := by
      have h := hchain
      simp only [stepChain, Bool.and_eq_true] at h
      exact h
    have h1 := hsplit.1
    have h2 := hsplit.2
    by_cases hsb : s = b
    · subst hsb
      have hd : dedupStatuses (s :: s :: rest) = dedupStatuses (s :: rest) := by
        simp [dedupStatuses]
      rw [hd]
      exact ih s h2
    · have hd : dedupStatuses (s :: b :: rest) = s :: dedupStatuses (b :: rest) := by
        simp [dedupStatuses, hsb]
      rw [hd]
      have hstep : chainStep s b = true := by
        have h3 := h1
        simp only [stepRel, Bool.or_eq_true] at h3
        rcases h3 with hx | hx
        · exact absurd (by simpa using hx) hsb
        · exact hx
      rcases ih b h2 with ⟨r, hr⟩ | ⟨r, hr⟩ <;>
        rcases chainStep_cases s b hstep with ⟨hs, hb⟩ | ⟨hs, hb⟩ | ⟨hs, hb⟩ <;>
          subst hs <;> subst hb
      · exact Or.inl ⟨r, by rw [List.cons_append, hr]; rfl⟩
      · exact Or.inl ⟨r, by rw [List.cons_append, hr]; rfl⟩
      · exact Or.inr ⟨r, by rw [List.cons_append, hr]; rfl⟩
      · exact Or.inr ⟨r, by rw [List.cons_append, hr]; rfl⟩
      · exact Or.inl ⟨r, by rw [List.cons_append, hr]; rfl⟩
      · exact Or.inr ⟨r, by rw [List.cons_append, hr]; rfl⟩

/-- Claim C5: starting from a pending observation, the status sequence a
task id exhibits under any series of queue operations (enqueue, claimNext,
completeWithResult, fail), with consecutive repeats collapsed, is a prefix
of pending, in_progress, completed or of pending, in_progress, failed; in
particular no operation skips a state or reverses a transition. -/
theorem agentTasks_status_prefix (k : Nat) (tasks : List AgentTask)
    (ops : List QueueOp) (h : statusOfD k tasks = TaskStatus.pending) :
    (∃ r, dedupStatuses (statusTrace k tasks ops) ++ r =
        [TaskStatus.pending, TaskStatus.in_progress, TaskStatus.completed]) ∨
      (∃ r, dedupStatuses (statusTrace k tasks ops) ++ r =
        [TaskStatus.pending, TaskStatus.in_progress, TaskStatus.failed]) := by
  have hchain := statusTrace_chain k ops tasks
  obtain ⟨rest, hrest⟩ := statusTrace_head k ops tasks
  rw [hrest, h] at hchain ⊢
  exact dedup_chain_rest rest TaskStatus.pending hchain

/-- Witness for agentTasks_status_prefix: a task that is enqueued, claimed
and then failed, observed from the empty table. -/
theorem agentTasks_status_prefix_witness :
    statusOfD 5 [] = TaskStatus.pending ∧
      ((∃ r, dedupStatuses (statusTrace 5 []
          [QueueOp.enq (AgentTask.mk 5 1 1 "t" none .pending .user 0 0),
           QueueOp.claim 1, QueueOp.fail 5 "boom"]) ++ r =
          [TaskStatus.pending, TaskStatus.in_progress, TaskStatus.completed]) ∨
        (∃ r, dedupStatuses (statusTrace 5 []
          [QueueOp.enq (AgentTask.mk 5 1 1 "t" none .pending .user 0 0),
           QueueOp.claim 1, QueueOp.fail 5 "boom"]) ++ r =
          [TaskStatus.pending, TaskStatus.in_progress, TaskStatus.failed])) :=
  ⟨rfl, agentTasks_status_prefix 5 [] _ rfl⟩

/-- Role of a thread or conversation message. -/
inductive MsgRole
  | user
  | assistant
  | system
deriving DecidableEq, Repr

/-- One thread message as decideBriefing reads it: role and content. -/
structure ThreadMsg where
  role : MsgRole
  content : String
deriving DecidableEq, Repr

/-- Structured output of the briefing classifier (the
BriefingDecisionSchema of part_005 lines 504 to 515): shouldBrief, a
reason, and optional title, summary and full message. -/
structure BriefingDecision where
  shouldBrief : Bool
  reason : String
  title : Option String
  summary : Option String
  fullMessage : Option String
deriving DecidableEq, Repr

/-- One inbox_items row as created by decideBriefing: user, team, agent,
type, title and content. -/
structure InboxItem where
  userId : Nat
  teamId : Nat
  agentId : Nat
  itemType : String
  title : String
  content : String
deriving DecidableEq, Repr

/-- Oracle for decideBriefing's collaborators: the structured-output LLM
call (which may throw) and the team's user id lookup. -/
structure BriefEnv where
  decision : Except String BriefingDecision
  teamUserId : Option Nat

/-- Persistent state decideBriefing may touch: the thread it reviews, the
inbox, and the user-facing conversation (assistant messages appended). -/
structure BriefState where
  threadMsgs : List ThreadMsg
  inboxItems : List InboxItem
  convMsgs : List String
deriving DecidableEq, Repr

/-- JavaScript truthiness of an optional string field: defined and
non-empty (part_005 line 545 tests decision.title etc. for truthiness). -/
def truthy (o : Option String) : Bool :=
  match o with
  | none => false
  | some str => !(str.length == 0)

/-- Summary of the assistant-authored thread content fed to the classifier
(part_005 lines 497 to 501): assistant messages joined and truncated to
2000 characters. -/
def workSummary (msgs : List ThreadMsg) : String :=
  (String.intercalate "\n\n"
    ((msgs.filter (fun m => m.role == MsgRole.assistant)).map (fun m => m.content))).take 2000

/-- Embedding of Agent.decideBriefing (part_005 lines 489 to 580): return
for non-leads; return when the thread has no messages at all; ask the
classifier (its throw is caught and becomes a plain return); on a truthy
shouldBrief, title, summary and fullMessage, resolve the team's user and,
if found, create one inbox item of type briefing carrying the summary and
append the full message to the user conversation; otherwise do nothing. -/
def decideBriefing (env : BriefEnv) (agentId teamId : Nat)
    (parentAgentId : Option Nat) (s : BriefState) : BriefState :=
  if parentAgentId.isSome then s
  else if s.threadMsgs.length == 0 then s
  else
    match env.decision with
    | .error _ => s
    | .ok d =>
      if d.shouldBrief && truthy d.title && truthy d.summary && truthy d.fullMessage then
        match env.teamUserId with
        | none => s
        | some uid =>
          { s with
            inboxItems := s.inboxItems ++
              [⟨uid, teamId, agentId, "briefing", d.title.getD "", d.summary.getD ""⟩],
            convMsgs := s.convMsgs ++ [d.fullMessage.getD ""] }
      else s

/-- Counterexample to claim C6 as stated: a lead's thread holding a single
user-role message has zero assistant messages, yet decideBriefing does not
return early (the guard only checks for zero messages of any role); with a
classifier answering shouldBrief true it creates an inbox notification, a
side effect. -/
theorem decideBriefing_assistantless_side_effect :
    ((BriefState.mk [ThreadMsg.mk MsgRole.user "hello"] [] []).threadMsgs.filter
        (fun m => m.role == MsgRole.assistant)).length = 0 ∧
      ((decideBriefing
          ⟨Except.ok ⟨true, "r", some "T", some "S", some "F"⟩, some 7⟩ 1 2 none
          (BriefState.mk [ThreadMsg.mk MsgRole.user "hello"] [] [])).inboxItems.length = 1 ∧
        (BriefState.mk [ThreadMsg.mk MsgRole.user "hello"] [] []).inboxItems.length = 0) :=
  ⟨rfl, rfl, rfl⟩

/-- Claim C6 as amended: decideBriefing returns with no side effects for
subordinate agents, for threads with zero messages of any role (a thread
whose messages are all non-assistant does not take the early return), when
the classifier throws, when it answers with shouldBrief false or with a
missing or empty title, summary or full message, and when no owning user
resolves; when shouldBrief is true with all three fields truthy and an
owning user exists, it creates exactly one summary-only inbox notification
and appends the full message to the user-facing Conversation (there is no
separate Briefing record and no transaction in this code path). -/
theorem decideBriefing_amended (env : BriefEnv) (agentId teamId : Nat)
    (s : BriefState) :
    (∀ pid, decideBriefing env agentId teamId (some pid) s = s) ∧
      (s.threadMsgs = [] → decideBriefing env agentId teamId none s = s) ∧
      (∀ e, env.decision = Except.error e →
        decideBriefing env agentId teamId none s = s) ∧
      (∀ d, env.decision = Except.ok d →
        (d.shouldBrief && truthy d.title && truthy d.summary &&
          truthy d.fullMessage) = false →
        decideBriefing env agentId teamId none s = s) ∧
      (∀ d, env.decision = Except.ok d → env.teamUserId = none →
        decideBriefing env agentId teamId none s = s) ∧
      (∀ d uid, env.decision = Except.ok d →
        (d.shouldBrief && truthy d.title && truthy d.summary &&
          truthy d.fullMessage) = true →
        env.teamUserId = some uid → s.threadMsgs ≠ [] →
        decideBriefing env agentId teamId none s =
          { s with
            inboxItems := s.inboxItems ++
              [⟨uid, teamId, agentId, "briefing", d.title.getD "", d.summary.getD ""⟩],
            convMsgs := s.convMsgs ++ [d.fullMessage.getD ""] }) := by
  refine ⟨?_, ?_, ?_, ?_, ?_, ?_⟩
  · intro pid
    simp [decideBriefing]
  · intro h
    simp [decideBriefing, h]
  · intro e h
    by_cases hm : s.threadMsgs.length == 0
    · simp [decideBriefing, hm]
    · simp [decideBriefing, hm, h]
  · intro d h hcond
    by_cases hm : s.threadMsgs.length == 0
    · simp [decideBriefing, hm]
    · simp [decideBriefing, hm, h, hcond]
  · intro d h huser
    by_cases hm : s.threadMsgs.length == 0
    · simp [decideBriefing, hm]
    · by_cases hcond : (d.shouldBrief && truthy d.title && truthy d.summary &&
          truthy d.fullMessage) = true
      · simp [decideBriefing, hm, h, hcond, huser]
      · simp [decideBriefing, hm, h, hcond]
  · intro d uid h hcond huser hne
    have hm : (s.threadMsgs.length == 0) = false := by
      simpa using (fun hh => hne (List.eq_nil_of_length_eq_zero hh))
    simp [decideBriefing, hm, h, hcond, huser]

/-- Witness for decideBriefing_amended: a lead's thread with one assistant
message, a briefing-worthy decision and a resolvable user produce exactly
the inbox notification and the conversation append. -/
theorem decideBriefing_amended_witness :
    decideBriefing ⟨Except.ok ⟨true, "r", some "T", some "S", some "F"⟩, some 7⟩ 1 2 none
        (BriefState.mk [ThreadMsg.mk MsgRole.assistant "found a signal"] [] []) =
      { threadMsgs := [ThreadMsg.mk MsgRole.assistant "found a signal"],
        inboxItems := [⟨7, 2, 1, "briefing", "T", "S"⟩],
        convMsgs := ["F"] } :=
  (decideBriefing_amended
      ⟨Except.ok ⟨true, "r", some "T", some "S", some "F"⟩, some 7⟩ 1 2
      (BriefState.mk [ThreadMsg.mk MsgRole.assistant "found a signal"] [] [])).2.2.2.2.2
    ⟨true, "r", some "T", some "S", some "F"⟩ 7 rfl (by decide) rfl (by decide)

/-- One durable user-facing conversation message. -/
structure ConvMessage where
  role : MsgRole
  content : String
deriving DecidableEq, Repr

/-- Oracle for handleUserMessage's collaborators: the lightweight
acknowledgment LLM call, plus the fresh row id and timestamp the insert
receives. -/
structure FgEnv where
  ackOf : String → String
  freshId : Nat
  now : Nat

/-- Foreground state touched by handleUserMessage: the durable Conversation
and the agent's task queue. -/
structure FgState where
  convMsgs : List ConvMessage
  tasks : List AgentTask
deriving Repr

/-- Embedding of Agent.handleUserMessage (part_005 lines 244 to 296): load
memories, append the user message to the Conversation, generate the
acknowledgment, append it to the Conversation, queue a task with source
user carrying the full message content (queueUserTask, modelled from the
spec since taskQueue.ts is not in src/), and only then return the stream
that yields the already persisted acknowledgment word by word. -/
def handleUserMessage (env : FgEnv) (agentId : Nat) (content : String)
    (s : FgState) : FgState × List String :=
  let s1 := { s with convMsgs := s.convMsgs ++ [ConvMessage.mk MsgRole.user content] }
  let ack := env.ackOf content
  let s2 := { s1 with convMsgs := s1.convMsgs ++ [ConvMessage.mk MsgRole.assistant ack] }
  let newTask : AgentTask :=
    ⟨env.freshId, agentId, agentId, content, none, .pending, .user, 0, env.now⟩
  let s3 := { s2 with tasks := enqueueTask newTask s2.tasks }
  (s3, (ack.splitOn " ").map (fun w => w ++ " "))

/-- Claim C8: handleUserMessage enqueues exactly one task, with source user
and the full message content, assigned to and by this agent; and the
acknowledgment is fully determined and persisted to the Conversation
before streaming begins, every streamed chunk being a pure function of the
persisted acknowledgment, so replays of the stream are safe. -/
theorem handleUserMessage_spec (env : FgEnv) (agentId : Nat) (content : String)
    (s : FgState) (hfresh : s.tasks.any (fun u => u.id == env.freshId) = false) :
    (handleUserMessage env agentId content s).1.tasks =
        s.tasks ++ [AgentTask.mk env.freshId agentId agentId content none
          .pending .user 0 env.now] ∧
      ∃ ack, (handleUserMessage env agentId content s).1.convMsgs =
          s.convMsgs ++ [ConvMessage.mk MsgRole.user content,
            ConvMessage.mk MsgRole.assistant ack] ∧
        (handleUserMessage env agentId content s).2 =
          (ack.splitOn " ").map (fun w => w ++ " ") := by
  constructor
  · show enqueueTask
      (AgentTask.mk env.freshId agentId agentId content none .pending .user 0 env.now)
      s.tasks = _
    unfold enqueueTask
    rw [if_neg (by simp [hfresh])]
  · exact ⟨env.ackOf content, by simp [handleUserMessage], rfl⟩

/-- Witness for handleUserMessage_spec on a fresh conversation and an empty
queue. -/
theorem handleUserMessage_spec_witness :
    (FgState.mk [] []).tasks.any (fun u => u.id == (FgEnv.mk (fun _ => "On it.") 5 3).freshId) = false ∧
      ((handleUserMessage (FgEnv.mk (fun _ => "On it.") 5 3) 1 "Check NVDA"
          (FgState.mk [] [])).1.tasks =
        (FgState.mk [] []).tasks ++ [AgentTask.mk 5 1 1 "Check NVDA" none
          .pending .user 0 3] ∧
      ∃ ack, (handleUserMessage (FgEnv.mk (fun _ => "On it.") 5 3) 1 "Check NVDA"
          (FgState.mk [] [])).1.convMsgs =
          (FgState.mk [] []).convMsgs ++ [ConvMessage.mk MsgRole.user "Check NVDA",
            ConvMessage.mk MsgRole.assistant ack] ∧
        (handleUserMessage (FgEnv.mk (fun _ => "On it.") 5 3) 1 "Check NVDA"
          (FgState.mk [] [])).2 = (ack.splitOn " ").map (fun w => w ++ " ")) :=
  ⟨rfl, handleUserMessage_spec (FgEnv.mk (fun _ => "On it.") 5 3) 1 "Check NVDA"
    (FgState.mk [] []) rfl⟩

/-- One agents row as the delegation ownership check sees it: id and
optional parent. -/
structure AgentRec where
  id : Nat
  parentAgentId : Option Nat
deriving DecidableEq, Repr

/-- Child agents of a lead: the rows whose parentAgentId is the lead
(getChildAgents of src/lib/db/queries/agents.ts as used by the tool). -/
def getChildAgents (agents : List AgentRec) (leadId : Nat) : List AgentRec :=
  agents.filter (fun ag => ag.parentAgentId == some leadId)

/-- Result of a tool execution: success flag and optional error text. -/
structure ToolResult where
  success : Bool
  error : Option String := none
deriving DecidableEq, Repr

/-- Tool context for delegation: the calling agent and its lead flag. -/
structure DelegCtx where
  agentId : Nat
  isLead : Bool
deriving DecidableEq, Repr

/-- Modelled from the spec and the schema defaults: createAgentTask inserts
one row with status pending and source delegation (agentTasks.ts is not in
src/; the schema gives both columns those defaults and the tool passes
neither). -/
def createAgentTask (freshId now : Nat) (assignedToId assignedById : Nat)
    (taskText : String) (tasks : List AgentTask) : List AgentTask :=
  tasks ++ [AgentTask.mk freshId assignedToId assignedById taskText none
    .pending .delegation 0 now]

/-- Embedding of the delegateToAgent tool handler
(src/src/lib/agents/tools/knowledge-item-tools.ts lines 342 to 410):
reject if the caller is not a lead; reject if the target is not among the
caller's child agents; otherwise create one task assigned to the target
with assignedById the delegating lead. -/
def delegateToAgent (agents : List AgentRec) (ctx : DelegCtx) (targetId : Nat)
    (taskText : String) (freshId now : Nat) (tasks : List AgentTask) :
    ToolResult × List AgentTask :=
  if !ctx.isLead then
    (⟨false, some "Only leads can delegate tasks"⟩, tasks)
  else if !((getChildAgents agents ctx.agentId).any (fun ch => ch.id == targetId)) then
    (⟨false, some "Can only delegate to agents on your team"⟩, tasks)
  else
    (⟨true, none⟩, createAgentTask freshId now targetId ctx.agentId taskText tasks)

/-- Claim C9: delegateToAgent rejects a non-lead caller and a target that
is not a child of the caller, creating no task and returning an error
result in both cases; when the target is an actual child it succeeds and
appends exactly one new pending task with source delegation, assigned to
the child, with assignedById the delegating lead. -/
theorem delegateToAgent_spec (agents : List AgentRec) (ctx : DelegCtx)
    (targetId : Nat) (taskText : String) (freshId now : Nat)
    (tasks : List AgentTask) :
    (ctx.isLead = false →
      (delegateToAgent agents ctx targetId taskText freshId now tasks).1.success = false ∧
        (delegateToAgent agents ctx targetId taskText freshId now tasks).2 = tasks) ∧
      (((getChildAgents agents ctx.agentId).any (fun ch => ch.id == targetId)) = false →
        (delegateToAgent agents ctx targetId taskText freshId now tasks).1.success = false ∧
          (delegateToAgent agents ctx targetId taskText freshId now tasks).2 = tasks) ∧
      (ctx.isLead = true →
        (∃ ch ∈ getChildAgents agents ctx.agentId, ch.id = targetId) →
        (delegateToAgent agents ctx targetId taskText freshId now tasks).1.success = true ∧
          (delegateToAgent agents ctx targetId taskText freshId now tasks).2 =
            tasks ++ [AgentTask.mk freshId targetId ctx.agentId taskText none
              .pending .delegation 0 now]) := by
  refine ⟨?_, ?_, ?_⟩
  · intro h
    simp [delegateToAgent, h]
  · intro h
    by_cases hl : ctx.isLead
    · simp [delegateToAgent, hl, h]
    · simp [delegateToAgent, hl]
  · intro hl hch
    have hany : ((getChildAgents agents ctx.agentId).any
        (fun ch => ch.id == targetId)) = true := by
      obtain ⟨ch, hmem, hid⟩ := hch
      exact List.any_eq_true.2 ⟨ch, hmem, by simp [hid]⟩
    constructor
    · simp [delegateToAgent, hl, hany]
    · simp [delegateToAgent, hl, hany, createAgentTask]

/-- Witness for delegateToAgent_spec: a lead delegating to its own child
gains exactly one pending delegation task in the child's queue. -/
theorem delegateToAgent_spec_witness :
    ((DelegCtx.mk 1 true).isLead = true ∧
      (∃ ch ∈ getChildAgents [AgentRec.mk 1 none, AgentRec.mk 2 (some 1)] 1,
        ch.id = 2)) ∧
      ((delegateToAgent [AgentRec.mk 1 none, AgentRec.mk 2 (some 1)]
          (DelegCtx.mk 1 true) 2 "dig into filings" 9 4 []).1.success = true ∧
        (delegateToAgent [AgentRec.mk 1 none, AgentRec.mk 2 (some 1)]
          (DelegCtx.mk 1 true) 2 "dig into filings" 9 4 []).2 =
          [] ++ [AgentTask.mk 9 2 1 "dig into filings" none .pending .delegation 0 4]) :=
  ⟨⟨rfl, by decide⟩,
    (delegateToAgent_spec [AgentRec.mk 1 none, AgentRec.mk 2 (some 1)]
      (DelegCtx.mk 1 true) 2 "dig into filings" 9 4 []).2.2 rfl (by decide)⟩

/-- One knowledge_items row as the removal tool sees it: id, owning agent
and content. -/
structure KnowledgeItem where
  id : Nat
  agentId : Nat
  content : String
deriving DecidableEq, Repr

/-- Lookup of a knowledge item by id (getKnowledgeItemById of
src/lib/db/queries/knowledge-items.ts as used by the tool). -/
def getKnowledgeItemById (items : List KnowledgeItem) (kid : Nat) :
    Option KnowledgeItem :=
  items.find? (fun k => k.id == kid)

/-- Row deletion by id (deleteKnowledgeItem). -/
def deleteKnowledgeItem (items : List KnowledgeItem) (kid : Nat) :
    List KnowledgeItem :=
  items.filter (fun k => !(k.id == kid))

/-- Embedding of the removeKnowledgeItem tool handler
(src/src/lib/agents/tools/knowledge-item-tools.ts lines 188 to 247): look
the item up; report not found when absent; refuse when it belongs to a
different agent; otherwise delete it. -/
def removeKnowledgeItem (ctxAgentId kid : Nat) (items : List KnowledgeItem) :
    ToolResult × List KnowledgeItem :=
  match getKnowledgeItemById items kid with
  | none => (⟨false, some "Knowledge item not found"⟩, items)
  | some k =>
    if k.agentId != ctxAgentId then
      (⟨false, some "Cannot remove knowledge items belonging to other agents"⟩, items)
    else
      (⟨true, none⟩, deleteKnowledgeItem items kid)

/-- Claim C10: removeKnowledgeItem deletes a knowledge item only when it
belongs to the calling agent; a missing id or an item owned by another
agent yields success false with a descriptive error and leaves the store
untouched, and only the owned case deletes the rows with that id. -/
theorem removeKnowledgeItem_ownership (ctxAgentId kid : Nat)
    (items : List KnowledgeItem) :
    (getKnowledgeItemById items kid = none →
      (removeKnowledgeItem ctxAgentId kid items).1.success = false ∧
        (removeKnowledgeItem ctxAgentId kid items).1.error =
          some "Knowledge item not found" ∧
        (removeKnowledgeItem ctxAgentId kid items).2 = items) ∧
      (∀ k, getKnowledgeItemById items kid = some k → k.agentId ≠ ctxAgentId →
        (removeKnowledgeItem ctxAgentId kid items).1.success = false ∧
          (removeKnowledgeItem ctxAgentId kid items).1.error =
            some "Cannot remove knowledge items belonging to other agents" ∧
          (removeKnowledgeItem ctxAgentId kid items).2 = items) ∧
      (∀ k, getKnowledgeItemById items kid = some k → k.agentId = ctxAgentId →
        (removeKnowledgeItem ctxAgentId kid items).1.success = true ∧
          (removeKnowledgeItem ctxAgentId kid items).2 =
            items.filter (fun j => !(j.id == kid))) := by
  refine ⟨?_, ?_, ?_⟩
  · intro h
    simp [removeKnowledgeItem, h]
  · intro k h hne
    simp [removeKnowledgeItem, h, hne]
  · intro k h he
    simp [removeKnowledgeItem, h, he, deleteKnowledgeItem]

/-- Witness for removeKnowledgeItem_ownership: an item owned by agent 2 is
refused when agent 1 asks to remove it, and the store keeps the row. -/
theorem removeKnowledgeItem_ownership_witness :
    (getKnowledgeItemById [KnowledgeItem.mk 9 2 "theirs"] 9 =
        some (KnowledgeItem.mk 9 2 "theirs") ∧
      (KnowledgeItem.mk 9 2 "theirs").agentId ≠ 1) ∧
      ((removeKnowledgeItem 1 9 [KnowledgeItem.mk 9 2 "theirs"]).1.success = false ∧
        (removeKnowledgeItem 1 9 [KnowledgeItem.mk 9 2 "theirs"]).1.error =
          some "Cannot remove knowledge items belonging to other agents" ∧
        (removeKnowledgeItem 1 9 [KnowledgeItem.mk 9 2 "theirs"]).2 =
          [KnowledgeItem.mk 9 2 "theirs"]) :=
  ⟨⟨rfl, by decide⟩,
    (removeKnowledgeItem_ownership 1 9 [KnowledgeItem.mk 9 2 "theirs"]).2.1
      (KnowledgeItem.mk 9 2 "theirs") rfl (by decide)⟩
